import Mathlib

/-!
Verification of the per-application memory reporter (src/main.rs).

The Rust program is embedded shallowly: strings are Lean `String`s, raw
file bytes are `List Char`, fallible reads are `Option`, and the
`HashMap`-based aggregation is a function `String → Option MapEntry`.
The index-driven argument scans of `find_jar_name` / `find_main_class`
are embedded with an explicit fuel parameter so that every recursion is
structural; the fuel is shown to be irrelevant once it covers the
remaining length of the vector, which is the termination argument of the
original `while` loops.
-/

namespace MemTool

/-- Splits a character list at every occurrence of `sep`, keeping empty
pieces; models Rust `slice::split` / `str::split` on a single separator. -/
def splitByChar (sep : Char) : List Char → List (List Char)
  | [] => [[]]
  | c :: cs =>
    match splitByChar sep cs with
    | [] => [[c]]
    | h :: t => if c = sep then [] :: h :: t else (c :: h) :: t

/-- Models Rust `std::path::Path::file_name`: the last normal component of
the path, `none` for paths ending in `..`, in `.` only, or with no
component at all. Path components are the nonempty, non-`.` pieces between
`/` separators. -/
def path_file_name (s : String) : Option String :=
  let comps := (splitByChar '/' s.toList).filter (fun c => !(c.isEmpty || c == ['.']))
  match comps.getLast? with
  | none => none
  | some c => if c = ['.', '.'] then none else some (String.mk c)

/-- Models `tok.starts_with('-')` from main.rs. -/
def starts_with_dash (t : String) : Bool :=
  match t.toList with
  | c :: _ => c == '-'
  | [] => false

/-- The classpath-style options that consume a following value
(main.rs lines 88 and 104). -/
def is_value_opt (t : String) : Bool :=
  t == "-cp" || t == "-classpath" || t == "--class-path"

/-- Fuelled embedding of the index loop of `find_jar_name` (main.rs 73-98):
at index `i`, a `-jar` token returns the basename of the following token
(or `None` when there is none), other `-`-prefixed tokens are skipped (two
positions for value-consuming options), and the loop stops at the first
non-option token, returning `None`. The in-bounds proofs of the two list
accesses mirror the source's `i < cmdline.len()` guards. -/
def find_jar_name_go (v : List String) : Nat → Nat → Option String
  | 0, _ => none
  | f + 1, i =>
    if h : i < v.length then
      let tok := v[i]
      if tok == "-jar" then
        if h2 : i + 1 < v.length then path_file_name v[i + 1] else none
      else if starts_with_dash tok then
        if is_value_opt tok then find_jar_name_go v f (i + 2)
        else find_jar_name_go v f (i + 1)
      else none
    else none

/-- `find_jar_name` from main.rs: the loop starts at index 1 (skipping
argv[0]); fuel `v.length` covers every reachable iteration. -/
def find_jar_name (v : List String) : Option String :=
  find_jar_name_go v v.length 1

/-- Fuelled embedding of the loop of `find_main_class` (main.rs 100-111):
skip `-`-prefixed tokens (two positions for value-consuming options) while
in range, then return `cmdline.get(i)`. -/
def find_main_class_go (v : List String) : Nat → Nat → Option String
  | 0, _ => none
  | f + 1, i =>
    if h : i < v.length then
      if starts_with_dash v[i] then
        if is_value_opt v[i] then find_main_class_go v f (i + 2)
        else find_main_class_go v f (i + 1)
      else v.get? i
    else v.get? i

/-- `find_main_class` from main.rs: scan from index 1 with fuel `v.length`. -/
def find_main_class (v : List String) : Option String :=
  find_main_class_go v v.length 1

/-- Structural (fuel-free) form of the jar scan, as a function of the
suffix of the vector from the current index. -/
def fjn_list : List String → Option String
  | [] => none
  | tok :: rest =>
    if tok == "-jar" then
      match rest with
      | nxt :: _ => path_file_name nxt
      | [] => none
    else if starts_with_dash tok then
      if is_value_opt tok then
        match rest with
        | _ :: rest2 => fjn_list rest2
        | [] => none
      else fjn_list rest
    else none

/-- Structural (fuel-free) form of the main-class scan. -/
def fmc_list : List String → Option String
  | [] => none
  | tok :: rest =>
    if starts_with_dash tok then
      if is_value_opt tok then
        match rest with
        | _ :: rest2 => fmc_list rest2
        | [] => none
      else fmc_list rest
    else some tok

/-- `JavaStrategy` from main.rs. -/
inductive JavaStrategy
  | Auto
  | Jar
  | Main
deriving DecidableEq

/-- `java_display_name` from main.rs 116-122. -/
def java_display_name (cmdline : List String) (strat : JavaStrategy) : Option String :=
  match strat with
  | .Jar => find_jar_name cmdline
  | .Main => find_main_class cmdline
  | .Auto => (find_jar_name cmdline).orElse (fun _ => find_main_class cmdline)

/-- The post-processing of main.rs line 185:
`app.rsplit('.').next().unwrap_or(&app)`, i.e. the text after the final
`.` of the chosen name (the whole name when it has no `.`). -/
def last_dot_segment (app : String) : String :=
  String.mk ((splitByChar '.' app.toList).getLastD app.toList)

/-- The key computation of main.rs 182-193: for a recognized Java launcher
command name, wrap the recovered (and dot-stripped) display name as
`java: <name>`, fall back to `java (<exe>)` and then to `java (java)`;
any other command name is the key itself. -/
def resolve_key (comm : String) (cmdline : List String) (strat : JavaStrategy)
    (exe : Option String) : String :=
  if comm == "java" || comm == "javaw" then
    match java_display_name cmdline strat with
    | some app => "java: " ++ last_dot_segment app
    | none => "java (" ++ exe.getD "java" ++ ")"
  else comm

/-- Models Rust `char::is_whitespace` restricted to the ASCII whitespace
characters that can occur in the kernel text files read here. -/
def is_ws (c : Char) : Bool :=
  c == ' ' || c == '\t' || c == '\n' || c == '\r' || c == '\x0b' || c == '\x0c'

/-- Accumulator-passing splitter for `str::split_whitespace`: maximal
nonempty runs of non-whitespace characters. -/
def ws_tokens_aux (acc : List Char) : List Char → List (List Char)
  | [] => if acc.isEmpty then [] else [acc.reverse]
  | c :: cs =>
    if is_ws c then
      if acc.isEmpty then ws_tokens_aux [] cs else acc.reverse :: ws_tokens_aux [] cs
    else ws_tokens_aux (c :: acc) cs

/-- Models `str::split_whitespace`. -/
def ws_tokens (l : List Char) : List (List Char) :=
  ws_tokens_aux [] l

/-- Models `str::strip_prefix`: `some` of the remainder when `p` is an
initial segment of the second list, `none` otherwise. -/
def chopPre : List Char → List Char → Option (List Char)
  | [], l => some l
  | _ :: _, [] => none
  | p :: ps, c :: cs => if p = c then chopPre ps cs else none

/-- Models `str::parse::<u64>().ok()`: an optional `+` sign followed by at
least one ASCII digit, rejecting values that do not fit in 64 bits. -/
def parse_u64 (l : List Char) : Option Nat :=
  let ds := match l with
    | '+' :: rest => rest
    | _ => l
  if ds.isEmpty then none
  else if ds.all (fun c => c.isDigit) then
    let n := ds.foldl (fun acc c => acc * 10 + (c.toNat - '0'.toNat)) 0
    if n < 2 ^ 64 then some n else none
  else none

/-- `read_memtotal_kb` from main.rs 5-13, over a file model: `none` when
`/proc/meminfo` is unreadable, otherwise its lines. The first line carrying
the `MemTotal:` label decides the result (its first whitespace token,
parsed); a file with no such line yields `none`. -/
def read_memtotal_kb (meminfo : Option (List (List Char))) : Option Nat :=
  meminfo.bind fun lines =>
    match lines.findSome? (fun ln => chopPre "MemTotal:".toList ln) with
    | some rest => ((ws_tokens rest).head?).bind parse_u64
    | none => none

/-- `read_status_vmrss_kb` from main.rs 30-38: like the `MemTotal` reader,
but a readable status file with no `VmRSS:` line yields `some 0`. -/
def read_status_vmrss_kb (status : Option (List (List Char))) : Option Nat :=
  status.bind fun lines =>
    match lines.findSome? (fun ln => chopPre "VmRSS:".toList ln) with
    | some rest => ((ws_tokens rest).head?).bind parse_u64
    | none => some 0

/-- `read_cmdname` from main.rs 16-28 over the raw bytes of
`/proc/[pid]/cmdline` (`none` = unreadable): argument zero is the text
before the first NUL byte, truncated at its first space byte; an empty
result is rejected, otherwise its final path component is the command
name. -/
def read_cmdname (data : Option (List Char)) : Option String :=
  data.bind fun d =>
    ((splitByChar '\x00' d).head?).bind fun part0 =>
      ((splitByChar ' ' part0).head?).bind fun argv0 =>
        if argv0.isEmpty then none
        else path_file_name (String.mk argv0)

/-- `read_cmdline` from main.rs 40-51: the NUL-separated nonempty tokens of
the raw cmdline bytes, `[]` for an empty file. -/
def read_cmdline (data : Option (List Char)) : Option (List String) :=
  data.map fun d =>
    if d.isEmpty then []
    else ((splitByChar '\x00' d).filter (fun p => !p.isEmpty)).map String.mk

/-- `MapEntry` from main.rs 128-131 (machine integers modelled as `Nat`;
the counted quantities stay far below the 32/64-bit bounds). -/
structure MapEntry where
  num : Nat
  memory : Nat
deriving DecidableEq, Repr

/-- The `by_key.entry(key).and_modify(..).or_insert(..)` update of
main.rs 195-200, on a map modelled as a function. -/
def update_map (m : String → Option MapEntry) (key : String) (rss : Nat) :
    String → Option MapEntry :=
  fun k =>
    if k = key then
      match m key with
      | some e => some ⟨e.num + 1, e.memory + rss⟩
      | none => some ⟨1, rss⟩
    else m k

/-- The aggregation fold of the main loop, restricted to its data content:
a sequence of (key, rss) samples folded left into the map. -/
def fold_samples (samples : List (String × Nat)) : String → Option MapEntry :=
  samples.foldl (fun m s => update_map m s.1 s.2) (fun _ => none)

/-- The per-process raw attributes the main loop reads for one numeric
`/proc` entry: the status file (for `VmRSS`), the raw cmdline bytes, and
the resolved executable basename. -/
structure Candidate where
  status : Option (List (List Char))
  cmdlineData : Option (List Char)
  exe : Option String

/-- One iteration of the main loop (main.rs 169-200) for one candidate:
skip on unreadable or zero resident memory, skip on missing command name,
otherwise resolve the key and update the aggregate map. -/
def step_candidate (strat : JavaStrategy) (m : String → Option MapEntry)
    (c : Candidate) : String → Option MapEntry :=
  match read_status_vmrss_kb c.status with
  | none => m
  | some rss =>
    if rss = 0 then m
    else
      match read_cmdname c.cmdlineData with
      | some comm =>
        if comm.isEmpty then m
        else update_map m (resolve_key comm ((read_cmdline c.cmdlineData).getD []) strat c.exe) rss
      | none => m

/-- The whole enumeration pass: fold `step_candidate` over the candidate
list starting from the empty map. -/
def run_aggregate (strat : JavaStrategy) (cands : List Candidate) :
    String → Option MapEntry :=
  cands.foldl (step_candidate strat) (fun _ => none)

/-- The two global inputs whose failure is fatal: the meminfo file and the
`/proc` directory listing (main.rs 141-157). -/
structure SysEnv where
  meminfo : Option (List (List Char))
  procEntries : Option (List Candidate)

/-- The exit status of `main` (main.rs 141-157): 1 when `MemTotal` cannot
be read or is zero, 1 when `/proc` cannot be listed, 0 otherwise — the
per-candidate loop never exits. -/
def run_exit_code (env : SysEnv) : Nat :=
  match read_memtotal_kb env.meminfo with
  | some v =>
    if v > 0 then
      match env.procEntries with
      | some _ => 0
      | none => 1
    else 1
  | none => 1

/-- The comparator of main.rs 204, as a relation: row `a` may precede row
`b` when its total memory is at least `b`'s. -/
def row_ord (a b : String × MapEntry) : Prop :=
  b.2.memory ≤ a.2.memory

instance : DecidableRel row_ord :=
  fun a b => inferInstanceAs (Decidable (b.2.memory ≤ a.2.memory))

/-- The `rows.sort_by(|a, b| b.1.memory.cmp(&a.1.memory))` of main.rs 204:
a sort of the rows by non-increasing total memory. -/
def sort_rows (l : List (String × MapEntry)) : List (String × MapEntry) :=
  List.insertionSort row_ord l

/-- One printed row of the report loop (main.rs 208-213), with the exact
real-valued quantities the loop computes (modelled over `ℚ`). -/
structure RowOut where
  key : String
  num : Nat
  memoryKb : Nat
  mb : ℚ
  pct : ℚ
  cum : ℚ
deriving DecidableEq, Repr

/-- The rendering loop of main.rs 207-213: running cumulative percentage
threaded through the rows. -/
def render_loop (total_kb : ℚ) : ℚ → List (String × MapEntry) → List RowOut
  | _, [] => []
  | cum0, (key, e) :: rest =>
    let pct := (e.memory : ℚ) * 100 / total_kb
    ⟨key, e.num, e.memory, (e.memory : ℚ) / 1024, pct, cum0 + pct⟩ ::
      render_loop total_kb (cum0 + pct) rest

/-- The report of main.rs 203-213: sort, truncate to `limit`, render. -/
def render (limit : Nat) (total_kb : ℚ) (rows : List (String × MapEntry)) :
    List RowOut :=
  render_loop total_kb 0 ((sort_rows rows).take limit)

/-- Running partial sums of a list, starting from `acc`. -/
def running_sums (acc : ℚ) : List ℚ → List ℚ
  | [] => []
  | p :: ps => (acc + p) :: running_sums (acc + p) ps

/-! ### Lemmas about the argument scans -/

lemma fjn_list_nil : fjn_list [] = none := rfl

lemma fjn_list_cons (tok : String) (rest : List String) :
    fjn_list (tok :: rest) =
      (if tok == "-jar" then
        match rest with
        | nxt :: _ => path_file_name nxt
        | [] => none
      else if starts_with_dash tok then
        if is_value_opt tok then
          match rest with
          | _ :: rest2 => fjn_list rest2
          | [] => none
        else fjn_list rest
      else none) := by
  cases rest <;> rfl

lemma fmc_list_nil : fmc_list [] = none := rfl

lemma fmc_list_cons (tok : String) (rest : List String) :
    fmc_list (tok :: rest) =
      (if starts_with_dash tok then
        if is_value_opt tok then
          match rest with
          | _ :: rest2 => fmc_list rest2
          | [] => none
        else fmc_list rest
      else some tok) := by
  cases rest <;> rfl

/-- The fuelled jar scan stabilizes once the fuel covers the remaining
length of the vector: this is the termination bound of the source loop
(the index strictly increases each iteration). -/
lemma fjn_go_eq (v : List String) : ∀ (f i : Nat), v.length - i ≤ f →
    find_jar_name_go v f i = fjn_list (v.drop i) := by
  intro f
  induction f with
  | zero =>
    intro i h
    have hi : v.length ≤ i := by omega
    simp [find_jar_name_go, List.drop_eq_nil_of_le hi, fjn_list_nil]
  | succ f ih =>
    intro i h
    by_cases hi : i < v.length
    · rw [List.drop_eq_getElem_cons hi]
      rw [find_jar_name_go, dif_pos hi, fjn_list_cons]
      by_cases hj : (v[i] == "-jar") = true
      · rw [if_pos hj, if_pos hj]
        by_cases h2 : i + 1 < v.length
        · rw [dif_pos h2, List.drop_eq_getElem_cons h2]
        · rw [dif_neg h2, List.drop_eq_nil_of_le (by omega)]
      · rw [if_neg hj, if_neg hj]
        by_cases hd : starts_with_dash v[i] = true
        · rw [if_pos hd, if_pos hd]
          by_cases hv : is_value_opt v[i] = true
          · rw [if_pos hv, if_pos hv, ih (i + 2) (by omega)]
            by_cases h2 : i + 1 < v.length
            · rw [List.drop_eq_getElem_cons h2]
            · rw [@List.drop_eq_nil_of_le _ v (i + 1) (by omega),
                @List.drop_eq_nil_of_le _ v (i + 2) (by omega), fjn_list_nil]
          · rw [if_neg hv, if_neg hv, ih (i + 1) (by omega)]
        · rw [if_neg hd, if_neg hd]
    · rw [find_jar_name_go, dif_neg hi, List.drop_eq_nil_of_le (by omega), fjn_list_nil]

/-- The fuelled main-class scan stabilizes once the fuel covers the
remaining length of the vector. -/
lemma fmc_go_eq (v : List String) : ∀ (f i : Nat), v.length - i ≤ f →
    find_main_class_go v f i = fmc_list (v.drop i) := by
  intro f
  induction f with
  | zero =>
    intro i h
    have hi : v.length ≤ i := by omega
    simp [find_main_class_go, List.drop_eq_nil_of_le hi, fmc_list_nil]
  | succ f ih =>
    intro i h
    by_cases hi : i < v.length
    · rw [List.drop_eq_getElem_cons hi]
      rw [find_main_class_go, dif_pos hi, fmc_list_cons]
      by_cases hd : starts_with_dash v[i] = true
      · rw [if_pos hd, if_pos hd]
        by_cases hv : is_value_opt v[i] = true
        · rw [if_pos hv, if_pos hv, ih (i + 2) (by omega)]
          by_cases h2 : i + 1 < v.length
          · rw [List.drop_eq_getElem_cons h2]
          · rw [@List.drop_eq_nil_of_le _ v (i + 1) (by omega),
              @List.drop_eq_nil_of_le _ v (i + 2) (by omega), fmc_list_nil]
        · rw [if_neg hv, if_neg hv, ih (i + 1) (by omega)]
      · rw [if_neg hd, if_neg hd]
        simp [List.get?_eq_getElem?, List.getElem?_eq_getElem hi]
    · rw [find_main_class_go, dif_neg hi, @List.drop_eq_nil_of_le _ v i (by omega),
        fmc_list_nil, List.get?_eq_getElem?]
      exact List.getElem?_eq_none (by omega)

/-- The top-level jar scan is the structural scan of the vector without
its argument zero. -/
lemma find_jar_name_eq (v : List String) : find_jar_name v = fjn_list (v.drop 1) :=
  fjn_go_eq v v.length 1 (by omega)

/-- The top-level main-class scan is the structural scan of the vector
without its argument zero. -/
lemma find_main_class_eq (v : List String) : find_main_class v = fmc_list (v.drop 1) :=
  fmc_go_eq v v.length 1 (by omega)

/-! ### Well-formed option blocks -/

/-- A block of JVM option tokens as the scans of main.rs read them: each
plain `-`-prefixed flag stands alone, each value-consuming option is
followed by the token holding its value. -/
inductive OptBlock : List String → Prop
  | nil : OptBlock []
  | flag (t : String) (rest : List String) :
      starts_with_dash t = true → is_value_opt t = false →
      OptBlock rest → OptBlock (t :: rest)
  | valued (t w : String) (rest : List String) :
      is_value_opt t = true → OptBlock rest → OptBlock (t :: w :: rest)

lemma value_opt_dash {t : String} (h : is_value_opt t = true) :
    starts_with_dash t = true := by
  simp only [is_value_opt, Bool.or_eq_true, beq_iff_eq] at h
  rcases h with (h | h) | h <;> subst h <;> decide

/-- The main-class scan passes over any well-formed option block. -/
lemma fmc_list_append {opts : List String} (h : OptBlock opts) :
    ∀ tail : List String, fmc_list (opts ++ tail) = fmc_list tail := by
  induction h with
  | nil => intro tail; rfl
  | flag t rest hd hv _ ih =>
    intro tail
    rw [List.cons_append, fmc_list_cons, if_pos hd, if_neg (by simp [hv])]
    exact ih tail
  | valued t w rest hv _ ih =>
    intro tail
    rw [List.cons_append, List.cons_append, fmc_list_cons,
      if_pos (value_opt_dash hv), if_pos hv]
    exact ih tail

/-- The jar scan passes over any block of plain flags that are not `-jar`
and not value-consuming. -/
lemma fjn_list_append_flags :
    ∀ opts : List String,
      (∀ t ∈ opts, starts_with_dash t = true ∧ is_value_opt t = false ∧ t ≠ "-jar") →
      ∀ tail : List String, fjn_list (opts ++ tail) = fjn_list tail := by
  intro opts
  induction opts with
  | nil => intro _ tail; rfl
  | cons t rest ih =>
    intro hp tail
    obtain ⟨hd, hv, hj⟩ := hp t (List.mem_cons_self t rest)
    rw [List.cons_append, fjn_list_cons, if_neg (by simp [hj]), if_pos hd,
      if_neg (by simp [hv])]
    exact ih (fun u hu => hp u (List.mem_cons_of_mem t hu)) tail

/-- A list of plain flags is in particular a well-formed option block. -/
lemma opt_block_of_flags :
    ∀ opts : List String,
      (∀ t ∈ opts, starts_with_dash t = true ∧ is_value_opt t = false ∧ t ≠ "-jar") →
      OptBlock opts := by
  intro opts
  induction opts with
  | nil => intro _; exact OptBlock.nil
  | cons t rest ih =>
    intro hp
    obtain ⟨hd, hv, _⟩ := hp t (List.mem_cons_self t rest)
    exact OptBlock.flag t rest hd hv (ih fun u hu => hp u (List.mem_cons_of_mem t hu))

/-! ### Lemmas about aggregation -/

/-- Folding samples into the map from an arbitrary starting map: the entry
of a key combines its starting value with the count and memory sum of the
samples carrying that key. -/
lemma fold_samples_from :
    ∀ (samples : List (String × Nat)) (m : String → Option MapEntry) (key : String),
    (samples.foldl (fun m s => update_map m s.1 s.2) m) key =
      (match m key, samples.filter (fun s => s.1 == key) with
       | none, [] => none
       | none, ms => some ⟨ms.length, (ms.map Prod.snd).sum⟩
       | some e, ms => some ⟨e.num + ms.length, e.memory + (ms.map Prod.snd).sum⟩) := by
  intro samples
  induction samples with
  | nil =>
    intro m key
    simp only [List.foldl_nil, List.filter_nil]
    cases m key <;> simp
  | cons s rest ih =>
    intro m key
    rw [List.foldl_cons, ih, List.filter_cons]
    by_cases hk : (s.1 == key) = true
    · have hk' : key = s.1 := (beq_iff_eq.mp hk).symm
      subst hk'
      rw [if_pos hk]
      have hu : (update_map m s.1 s.2) s.1 =
          (match m s.1 with
           | some e => some ⟨e.num + 1, e.memory + s.2⟩
           | none => some ⟨1, s.2⟩) := by
        simp [update_map]
      rw [hu]
      cases hm : m s.1 with
      | none =>
        simp only [Option.some.injEq, MapEntry.mk.injEq, List.length_cons,
          List.map_cons, List.sum_cons]
        cases hf : rest.filter (fun x => x.1 == s.1) <;>
          simp_all [MapEntry.mk.injEq]
        omega
      | some e =>
        simp only [Option.some.injEq, MapEntry.mk.injEq, List.length_cons,
          List.map_cons, List.sum_cons]
        constructor <;> omega
    · rw [if_neg hk]
      have hk' : ¬key = s.1 := fun h => hk (by simp [h])
      simp only [update_map, if_neg hk']

/-! ### Lemmas about ranking and rendering -/

instance : IsTotal (String × MapEntry) row_ord :=
  ⟨fun a b => le_total b.2.memory a.2.memory⟩

instance : IsTrans (String × MapEntry) row_ord :=
  ⟨fun _ _ _ h1 h2 => le_trans h2 h1⟩

/-- Rendering preserves the number of rows. -/
lemma render_loop_length (t : ℚ) :
    ∀ (c : ℚ) (l : List (String × MapEntry)),
    (render_loop t c l).length = l.length := by
  intro c l
  induction l generalizing c with
  | nil => rfl
  | cons x rest ih => cases x; simp [render_loop, ih]

/-- The keys of the rendered rows are the keys of the input rows,
in order. -/
lemma render_loop_keys (t : ℚ) :
    ∀ (c : ℚ) (l : List (String × MapEntry)),
    (render_loop t c l).map RowOut.key = l.map Prod.fst := by
  intro c l
  induction l generalizing c with
  | nil => rfl
  | cons x rest ih => cases x; simp [render_loop, ih]

/-- Each rendered row's percentage is its memory times 100 over the
total. -/
lemma render_loop_pct (t : ℚ) :
    ∀ (c : ℚ) (l : List (String × MapEntry)),
    ∀ ro ∈ render_loop t c l, ro.pct = (ro.memoryKb : ℚ) * 100 / t := by
  intro c l
  induction l generalizing c with
  | nil => intro ro h; simp [render_loop] at h
  | cons x rest ih =>
    intro ro h
    cases x with
    | mk k e =>
      simp only [render_loop, List.mem_cons] at h
      rcases h with h | h
      · subst h; rfl
      · exact ih _ ro h

/-- The cumulative column is the running sum of the percentage column. -/
lemma render_loop_cum (t : ℚ) :
    ∀ (c : ℚ) (l : List (String × MapEntry)),
    (render_loop t c l).map RowOut.cum =
      running_sums c ((render_loop t c l).map RowOut.pct) := by
  intro c l
  induction l generalizing c with
  | nil => rfl
  | cons x rest ih => cases x; simp [render_loop, running_sums, ih]

/-- With a positive total, the cumulative column prefixed with its
starting value is non-decreasing. -/
lemma render_loop_cum_chain (t : ℚ) (ht : 0 < t) :
    ∀ (c : ℚ) (l : List (String × MapEntry)),
    List.Chain' (· ≤ ·) (c :: (render_loop t c l).map RowOut.cum) := by
  intro c l
  induction l generalizing c with
  | nil => exact List.chain'_singleton c
  | cons x rest ih =>
    cases x with
    | mk k e =>
      have hp : (0 : ℚ) ≤ (e.memory : ℚ) * 100 / t :=
        div_nonneg (by positivity) ht.le
      simp only [render_loop, List.map_cons]
      rw [List.chain'_cons]
      exact ⟨by linarith, ih _⟩

/-! ### Spec-side command-name readers for the refinement claim -/

/-- Written from the claim's own words (whitespace version): take argument
zero of the recorded vector, keep only its first whitespace-separated
token, and report that token's final path component; empty yields no
name. -/
def spec_cmdname_ws (data : List Char) : Option String :=
  ((splitByChar '\x00' data).head?).bind fun part0 =>
    ((ws_tokens part0).head?).bind fun argv0 =>
      if argv0.isEmpty then none else path_file_name (String.mk argv0)

/-- Written from the amended claim's words (space version): argument zero
is the text before the first NUL byte, truncated at its first ASCII space
byte; an empty result yields no name, otherwise its final path component
is the command name. -/
def spec_cmdname_space (data : List Char) : Option String :=
  let argv0 := data.takeWhile (fun c => c != '\x00')
  let tok := argv0.takeWhile (fun c => c != ' ')
  if tok.isEmpty then none else path_file_name (String.mk tok)

/-- The head of a single-character split is the longest separator-free
initial segment. -/
lemma splitByChar_head (sep : Char) :
    ∀ l : List Char,
    (splitByChar sep l).head? = some (l.takeWhile (fun c => c != sep)) := by
  intro l
  induction l with
  | nil => rfl
  | cons c cs ih =>
    cases hsp : splitByChar sep cs with
    | nil => rw [hsp] at ih; exact Option.noConfusion ih
    | cons h t =>
      rw [hsp] at ih
      simp only [List.head?_cons, Option.some.injEq] at ih
      by_cases hc : c = sep
      · subst hc
        simp [splitByChar, hsp, List.takeWhile_cons]
      · simp [splitByChar, hsp, List.takeWhile_cons, hc, ih]

/-! ### The claims -/

/-- C1: evaluation of the key computation at the spec's own jar example.
The jar basename `server-1.2.jar` is recovered by the scan, but the
package-qualification strip of main.rs line 185 is applied to it as well,
so the produced key is `java: jar` and not `java: server-1.2.jar` as the
claim states: the strip is not restricted to main-class names. -/
theorem c1_jar_key_mangled :
    resolve_key "java" ["java", "-Xmx512m", "-jar", "/opt/app/server-1.2.jar"]
        JavaStrategy.Auto (some "java") = "java: jar" ∧
    find_jar_name ["java", "-Xmx512m", "-jar", "/opt/app/server-1.2.jar"] =
      some "server-1.2.jar" ∧
    last_dot_segment "server-1.2.jar" = "jar" := by
  refine ⟨?_, ?_, ?_⟩ <;> decide

/-- C2: folding any finite sequence of (key, memory) samples into the
aggregate map gives, for every key, a count equal to the number of samples
carrying that key and a memory equal to the sum of their memory values
(and no entry at all for a key with no sample). -/
theorem c2_aggregate_fold (samples : List (String × Nat)) (key : String) :
    fold_samples samples key =
      (match samples.filter (fun s => s.1 == key) with
       | [] => none
       | ms => some ⟨ms.length, (ms.map Prod.snd).sum⟩) := by
  show (samples.foldl (fun m s => update_map m s.1 s.2) (fun _ => none)) key = _
  rw [fold_samples_from]
  cases samples.filter (fun s => s.1 == key) <;> rfl

/-- C3: under the main-class-preferred strategy, the option-skipping scan
over any well-formed option block returns the first non-option token, and
the key keeps only the text after the final dot; in particular the spec's
example vector yields the key `java: Server`. -/
theorem c3_main_class_key (a0 : String) (opts : List String) (mc : String)
    (rest : List String) (exe : Option String) (hb : OptBlock opts)
    (hmc : starts_with_dash mc = false) :
    find_main_class (a0 :: (opts ++ mc :: rest)) = some mc ∧
    resolve_key "java" (a0 :: (opts ++ mc :: rest)) JavaStrategy.Main exe =
      "java: " ++ last_dot_segment mc ∧
    resolve_key "java" ["java", "-cp", "/lib/a.jar:/lib/b.jar", "com.example.Server",
      "--port=8080"] JavaStrategy.Main none = "java: Server" := by
  have h1 : find_main_class (a0 :: (opts ++ mc :: rest)) = some mc := by
    rw [find_main_class_eq]
    show fmc_list (opts ++ mc :: rest) = some mc
    rw [fmc_list_append hb, fmc_list_cons, if_neg (by simp [hmc])]
  refine ⟨h1, ?_, by decide⟩
  simp [resolve_key, java_display_name, h1]

/-- C3 witness: the theorem applied at the spec's example vector, with the
option block `-cp /lib/a.jar:/lib/b.jar` built by its constructors. -/
theorem c3_main_class_key_witness :
    find_main_class ["java", "-cp", "/lib/a.jar:/lib/b.jar", "com.example.Server",
      "--port=8080"] = some "com.example.Server" := by
  have hb : OptBlock ["-cp", "/lib/a.jar:/lib/b.jar"] :=
    OptBlock.valued "-cp" "/lib/a.jar:/lib/b.jar" [] (by decide) OptBlock.nil
  exact (c3_main_class_key "java" ["-cp", "/lib/a.jar:/lib/b.jar"] "com.example.Server"
    ["--port=8080"] none hb (by decide)).1

/-- C4: for a recognized Java launcher command name, a run of the display
heuristic that recovers no name produces `java (<exe>)` from the resolved
executable basename and `java (java)` when that is absent, while a
recovered name is wrapped as `java: <name>` (after the final-dot
post-processing); the spec's `openjdk` example is included. -/
theorem c4_java_fallback (comm : String) (cmdline : List String) (strat : JavaStrategy)
    (e : String) (exe : Option String) (hc : comm = "java" ∨ comm = "javaw") :
    (java_display_name cmdline strat = none →
      resolve_key comm cmdline strat (some e) = "java (" ++ e ++ ")" ∧
      resolve_key comm cmdline strat none = "java (java)") ∧
    (∀ app, java_display_name cmdline strat = some app →
      resolve_key comm cmdline strat exe = "java: " ++ last_dot_segment app) ∧
    resolve_key "java" ["java", "-Xmx512m"] JavaStrategy.Auto (some "openjdk") =
      "java (openjdk)" := by
  have hcb : (comm == "java" || comm == "javaw") = true := by
    rcases hc with h | h <;> subst h <;> decide
  refine ⟨fun h => ?_, fun app h => ?_, by decide⟩
  · constructor <;> simp [resolve_key, hcb, h]
  · simp [resolve_key, hcb, h]

/-- C4 witness: the theorem applied at the spec's example, a launcher with
only JVM flags and executable basename `openjdk`. -/
theorem c4_java_fallback_witness :
    resolve_key "java" ["java", "-Xmx512m"] JavaStrategy.Auto (some "openjdk") =
      "java (" ++ "openjdk" ++ ")" ∧
    resolve_key "java" ["java", "-Xmx512m"] JavaStrategy.Auto none = "java (java)" :=
  (c4_java_fallback "java" ["java", "-Xmx512m"] JavaStrategy.Auto "openjdk" none
    (Or.inl rfl)).1 (by decide)

/-- C5: after ranking, every pair of adjacent rows of the displayed prefix
satisfies the non-increasing-memory relation of the sort comparator. -/
theorem c5_rows_sorted (l : List (String × MapEntry)) (limit : Nat) :
    List.Chain' row_ord ((sort_rows l).take limit) := by
  have hs : List.Pairwise row_ord (sort_rows l) := List.sorted_insertionSort row_ord l
  exact (hs.sublist (List.take_sublist limit _)).chain'

/-- C6: at most `limit` rows are rendered and they are the top-ranked
prefix; each rendered row's percentage is its memory times 100 over the
system total (not over the displayed sum); the cumulative column is the
running sum of the percentage column and is non-decreasing; and the spec's
concrete truncation example holds (512000 kB and 307200 kB out of
1024000 kB with limit 1: one row, 50 and cumulative 50). -/
theorem c6_render_truncation (limit : Nat) (t : ℚ)
    (rows : List (String × MapEntry)) (ht : 0 < t) :
    ((render limit t rows).length ≤ limit ∧
     (render limit t rows).map RowOut.key = ((sort_rows rows).take limit).map Prod.fst ∧
     (∀ ro ∈ render limit t rows, ro.pct = (ro.memoryKb : ℚ) * 100 / t) ∧
     (render limit t rows).map RowOut.cum =
       running_sums 0 ((render limit t rows).map RowOut.pct) ∧
     List.Chain' (· ≤ ·) ((render limit t rows).map RowOut.cum)) ∧
    render 1 1024000 [("app-a", ⟨1, 512000⟩), ("app-b", ⟨1, 307200⟩)] =
      [⟨"app-a", 1, 512000, 500, 50, 50⟩] := by
  refine ⟨⟨?_, render_loop_keys t 0 _, render_loop_pct t 0 _, render_loop_cum t 0 _,
    (render_loop_cum_chain t ht 0 _).tail⟩, ?_⟩
  · rw [render, render_loop_length, List.length_take]
    exact min_le_left _ _
  · norm_num [render, render_loop, sort_rows, List.insertionSort, List.orderedInsert,
      row_ord, RowOut.mk.injEq]

/-- C6 witness: the theorem applied at the spec's truncation example. -/
theorem c6_render_truncation_witness :
    (render 1 1024000 [("app-a", ⟨1, 512000⟩), ("app-b", ⟨1, 307200⟩)]).length ≤ 1 ∧
    render 1 1024000 [("app-a", ⟨1, 512000⟩), ("app-b", ⟨1, 307200⟩)] =
      [⟨"app-a", 1, 512000, 500, 50, 50⟩] := by
  have h := c6_render_truncation 1 1024000
    [("app-a", ⟨1, 512000⟩), ("app-b", ⟨1, 307200⟩)] (by norm_num)
  exact ⟨h.1.1, h.2⟩

/-- C7: a candidate whose resident-memory read fails or yields zero leaves
the aggregate map untouched in one loop step and contributes nothing to
the whole enumeration fold wherever it sits; and a readable status file
with no `VmRSS:` line reads as zero resident memory. -/
theorem c7_zero_memory_skipped (strat : JavaStrategy) (m : String → Option MapEntry)
    (c : Candidate) (lines : List (List Char)) :
    ((read_status_vmrss_kb c.status = none ∨ read_status_vmrss_kb c.status = some 0) →
      step_candidate strat m c = m ∧
      ∀ pre post : List Candidate,
        run_aggregate strat (pre ++ c :: post) = run_aggregate strat (pre ++ post)) ∧
    ((∀ ln ∈ lines, chopPre "VmRSS:".toList ln = none) →
      read_status_vmrss_kb (some lines) = some 0) := by
  constructor
  · intro h
    have hstep : ∀ m' : String → Option MapEntry, step_candidate strat m' c = m' := by
      intro m'
      rcases h with h | h <;> simp [step_candidate, h]
    refine ⟨hstep m, fun pre post => ?_⟩
    rw [run_aggregate, run_aggregate, List.foldl_append, List.foldl_append,
      List.foldl_cons, hstep]
  · intro h
    have hn : lines.findSome? (fun ln => chopPre "VmRSS:".toList ln) = none :=
      List.findSome?_eq_none_iff.mpr h
    show (match lines.findSome? (fun ln => chopPre "VmRSS:".toList ln) with
          | some rest => ((ws_tokens rest).head?).bind parse_u64
          | none => some 0) = some 0
    rw [hn]

/-- C7 witness: the theorem applied to a candidate with an unreadable
status file and to a status file with no `VmRSS:` line. -/
theorem c7_zero_memory_skipped_witness :
    step_candidate JavaStrategy.Auto (fun _ => none) ⟨none, none, none⟩ =
      (fun _ => none) ∧
    read_status_vmrss_kb (some ["Name:\tx".toList]) = some 0 := by
  have h := c7_zero_memory_skipped JavaStrategy.Auto (fun _ => none)
    ⟨none, none, none⟩ ["Name:\tx".toList]
  exact ⟨(h.1 (Or.inl rfl)).1, h.2 (by decide)⟩

/-- C8: the run exits non-zero exactly when the memory total is unreadable
or zero or the process-table root is unreadable; the exit status never
depends on the per-process candidate data. -/
theorem c8_exit_code (env : SysEnv) (mi : Option (List (List Char)))
    (cs1 cs2 : List Candidate) :
    (run_exit_code env ≠ 0 ↔
      read_memtotal_kb env.meminfo = none ∨ read_memtotal_kb env.meminfo = some 0 ∨
        env.procEntries = none) ∧
    run_exit_code ⟨mi, some cs1⟩ = run_exit_code ⟨mi, some cs2⟩ := by
  constructor
  · cases env with
    | mk me pe =>
      simp only [run_exit_code]
      cases h : read_memtotal_kb me with
      | none => simp
      | some v =>
        dsimp only
        by_cases hv : v > 0
        · rw [if_pos hv]
          cases pe <;> simp [Nat.pos_iff_ne_zero.mp hv]
        · rw [if_neg hv]
          have hz : v = 0 := by omega
          subst hz
          simp
  · simp only [run_exit_code]

/-- C9 counterexample: argument zero `a<TAB>b` holds two
whitespace-separated tokens, but the code splits only at the space byte,
so the reported command name is `a<TAB>b`, not the basename `a` of the
first whitespace token that the claim prescribes. -/
theorem c9_whitespace_counterexample :
    read_cmdname (some ['a', '\t', 'b']) = some "a\tb" ∧
    spec_cmdname_ws ['a', '\t', 'b'] = some "a" ∧
    read_cmdname (some ['a', '\t', 'b']) ≠ spec_cmdname_ws ['a', '\t', 'b'] := by
  refine ⟨?_, ?_, ?_⟩ <;> decide

/-- C9 (amended): the command name is the final path component of argument
zero truncated at its first ASCII space byte (not at general whitespace);
an unreadable argument vector reads as no name, and a candidate whose
command name cannot be read leaves the aggregate map untouched. -/
theorem c9_cmdname_amended (d : List Char) (strat : JavaStrategy)
    (m : String → Option MapEntry) (c : Candidate) :
    read_cmdname (some d) = spec_cmdname_space d ∧
    read_cmdname none = none ∧
    (read_cmdname c.cmdlineData = none → step_candidate strat m c = m) := by
  refine ⟨?_, rfl, fun h => ?_⟩
  · simp [read_cmdname, spec_cmdname_space, splitByChar_head]
  · cases hs : read_status_vmrss_kb c.status with
    | none => simp [step_candidate, hs]
    | some rss => by_cases hr : rss = 0 <;> simp [step_candidate, hs, hr, h]

/-- C9 witness: the amended theorem applied at a one-byte argument vector
and at a candidate with readable memory but unreadable arguments. -/
theorem c9_cmdname_amended_witness :
    read_cmdname (some ['a']) = spec_cmdname_space ['a'] ∧
    step_candidate JavaStrategy.Auto (fun _ => none)
      ⟨some ["VmRSS:\t7 kB".toList], none, none⟩ = (fun _ => none) := by
  have h := c9_cmdname_amended ['a'] JavaStrategy.Auto (fun _ => none)
    ⟨some ["VmRSS:\t7 kB".toList], none, none⟩
  exact ⟨h.1, h.2.2 rfl⟩

/-- C10: the fuelled index scans stabilize as soon as the fuel covers the
remaining vector length (the loops terminate within that many iterations,
and every access stays behind an explicit bound check), and on vectors
whose trailing token is a value-consuming option or `-jar` the scans yield
no result rather than an error. -/
theorem c10_scan_safety :
    (∀ (v : List String) (f i : Nat), v.length - i ≤ f →
        find_jar_name_go v f i = fjn_list (v.drop i)) ∧
    (∀ (v : List String) (f i : Nat), v.length - i ≤ f →
        find_main_class_go v f i = fmc_list (v.drop i)) ∧
    (∀ opts : List String,
        (∀ t ∈ opts, starts_with_dash t = true ∧ is_value_opt t = false ∧ t ≠ "-jar") →
        find_jar_name ("java" :: opts ++ ["-jar"]) = none ∧
        find_jar_name ("java" :: opts ++ ["-cp"]) = none ∧
        find_main_class ("java" :: opts ++ ["-cp"]) = none ∧
        find_main_class ("java" :: opts ++ ["--class-path"]) = none) := by
  refine ⟨fun v => fjn_go_eq v, fun v => fmc_go_eq v, fun opts hp => ?_⟩
  refine ⟨?_, ?_, ?_, ?_⟩
  · rw [find_jar_name_eq]
    show fjn_list (opts ++ ["-jar"]) = none
    rw [fjn_list_append_flags opts hp]
    decide
  · rw [find_jar_name_eq]
    show fjn_list (opts ++ ["-cp"]) = none
    rw [fjn_list_append_flags opts hp]
    decide
  · rw [find_main_class_eq]
    show fmc_list (opts ++ ["-cp"]) = none
    rw [fmc_list_append (opt_block_of_flags opts hp)]
    decide
  · rw [find_main_class_eq]
    show fmc_list (opts ++ ["--class-path"]) = none
    rw [fmc_list_append (opt_block_of_flags opts hp)]
    decide

/-- C10 witness: the stabilization parts applied at concrete vectors and
fuels, and the trailing-option parts at a one-flag prefix. -/
theorem c10_scan_safety_witness :
    find_jar_name_go ["java", "-jar"] 2 1 = fjn_list (["java", "-jar"].drop 1) ∧
    find_main_class_go ["java", "-cp"] 2 1 = fmc_list (["java", "-cp"].drop 1) ∧
    find_jar_name ["java", "-Xmx512m", "-jar"] = none ∧
    find_main_class ["java", "-Xmx512m", "-cp"] = none := by
  have h := c10_scan_safety
  have h3 := h.2.2 ["-Xmx512m"] (by decide)
  exact ⟨h.1 ["java", "-jar"] 2 1 (by decide), h.2.1 ["java", "-cp"] 2 1 (by decide),
    h3.1, h3.2.2.1⟩

end MemTool
